import Mathlib

/-!
Verification of the Uncle's Radar pipeline (src/app.py).

The pipeline: load a CSV table, normalize column headers, heuristically bind
four semantic columns (Schema Resolver), filter rows to promoter open-market
buys (Signal Classifier), group by the literal SYMBOL column summing the
transaction value (Aggregator), enrich the top N ranked companies with
external fundamentals (Fundamentals Enricher), and partition them by
threshold inequalities (Quality Gate).

Numeric cells are embedded as rationals; missing values (pandas NaN) as
`Option`/a dedicated `Cell.na` constructor; the external lookup as a function
returning `Except`, mirroring the try/except around `yf.Ticker(...).info`.
-/

namespace UnclesRadar

/-- Characters of a string, lowercased: model of Python `s.lower()` as used
on the ASCII header/category texts the program matches against. -/
def lowerChars (s : String) : List Char := s.data.map Char.toLower

/-- Model of Python `kw.lower() in hay.lower()` (case-insensitive substring),
as in `get_col_name` and `Series.str.contains(kw, case=False)`. -/
def containsTok (hay kw : String) : Bool :=
  (lowerChars hay).tails.any (fun t => (lowerChars kw).isPrefixOf t)

/-- Model of pandas `Series.str.startswith(kw)` on one string: a
case-sensitive prefix test (`str.startswith` has no case folding). -/
def startsTok (s kw : String) : Bool := kw.data.isPrefixOf s.data

/-- Case-insensitive prefix test. This is NOT what the code runs; it is the
reading the spec asserts for the acquisition-mode predicate, kept for
comparison with `startsTok`. -/
def startsTokCI (s kw : String) : Bool :=
  (lowerChars kw).isPrefixOf (lowerChars s)

/-- Strip leading and trailing whitespace from a character list, model of
`str.strip()`. -/
def stripChars (l : List Char) : List Char :=
  ((l.dropWhile Char.isWhitespace).reverse.dropWhile Char.isWhitespace).reverse

/-- Header normalization of line 50:
`df.columns.str.replace('\n', '', regex=False).str.strip()`. -/
def normCol (s : String) : String :=
  ⟨stripChars (s.data.filter (fun c => c ≠ '\n'))⟩

/-- One cell of the loaded table: missing (NaN), text, or numeric. -/
inductive Cell where
  | na
  | str (s : String)
  | num (q : ℚ)
  deriving DecidableEq

/-- Numeric value of a digit list, most significant first. -/
def digitsToNat (l : List Char) : ℕ :=
  l.foldl (fun a c => 10 * a + (c.toNat - 48)) 0

/-- Unsigned decimal parser, character level: digits with an optional single
decimal point (at least one digit overall). Returns integer-part value,
fraction-part value and fraction length. Models the numeric-text forms
`pd.to_numeric` accepts for the plain decimals that occur in the value
column; anything else is a parse failure (which `errors='coerce'` turns
into NaN). -/
def parseParts (l : List Char) : Option (ℕ × ℕ × ℕ) :=
  let ip := l.takeWhile (fun c => c ≠ '.')
  let rest := l.dropWhile (fun c => c ≠ '.')
  match rest with
  | [] =>
    if !ip.isEmpty && ip.all Char.isDigit then some (digitsToNat ip, 0, 0) else none
  | _ :: fp =>
    if ip.all Char.isDigit && fp.all Char.isDigit && !fp.contains '.' &&
        (!ip.isEmpty || !fp.isEmpty) then
      some (digitsToNat ip, digitsToNat fp, fp.length)
    else none

/-- Rational value of parsed decimal parts. -/
def ratOfParts (p : ℕ × ℕ × ℕ) : ℚ :=
  (p.1 : ℚ) + (p.2.1 : ℚ) / ((10 : ℚ) ^ p.2.2)

/-- Unsigned decimal parser into the rationals. -/
def parseNumCore (l : List Char) : Option ℚ := (parseParts l).map ratOfParts

/-- Model of `pd.to_numeric(cell, errors='coerce')` on one cell: numbers pass
through, numeric-looking text parses (with optional sign), everything else
becomes NaN (`none`) instead of raising. -/
def toNumeric (c : Cell) : Option ℚ :=
  match c with
  | .num q => some q
  | .na => none
  | .str s =>
    match s.data with
    | [] => none
    | c0 :: rest =>
      if c0 = '-' then (parseNumCore rest).map (fun q => -q)
      else if c0 = '+' then parseNumCore rest
      else parseNumCore (c0 :: rest)

/-- Round half to even on rationals, the rounding of `round`/`np.round`
applied by the program (exact arithmetic stands in for float64). -/
def roundHalfEven (q : ℚ) : ℤ :=
  let n : ℤ := ⌊q⌋
  let r : ℚ := q - (n : ℚ)
  if r < 1 / 2 then n else if 1 / 2 < r then n + 1 else if n % 2 = 0 then n else n + 1

/-- Model of `round(x, 2)` as applied on line 78 and line 143. -/
def round2 (q : ℚ) : ℚ := ((roundHalfEven (q * 100) : ℚ)) / 100

/-- One raw disclosure row, already projected through the resolved column
binding: the three text fields read via the `.str` accessor (a non-string or
missing cell reads as `none`, matching `na=False` semantics), the raw value
cell, and the literal SYMBOL cell used as the grouping key. -/
structure Record where
  actorCategory : Option String
  transactionType : Option String
  acquisitionMode : Option String
  transactionValue : Cell
  symbol : Option String
  deriving DecidableEq

/-- Line 68 predicate: `df[person_col].str.contains('Promoter', case=False, na=False)`. -/
def personB (r : Record) : Bool :=
  match r.actorCategory with
  | none => false
  | some s => containsTok s "Promoter"

/-- Lines 69-72 predicate: contains Buy or contains Acqui, case-insensitive,
missing is False. -/
def buyB (r : Record) : Bool :=
  match r.transactionType with
  | none => false
  | some s => containsTok s "Buy" || containsTok s "Acqui"

/-- Line 73 predicate: `str.startswith('Market P', na=False)` (case-sensitive). -/
def modeB (r : Record) : Bool :=
  match r.acquisitionMode with
  | none => false
  | some s => startsTok s "Market P"

/-- Signal Classifier, lines 68-73: three successive boolean-mask filters. -/
def classify (rs : List Record) : List Record :=
  ((rs.filter personB).filter buyB).filter modeB

/-- One aggregated row of `grouped_df`: symbol, summed value, and the
`Value (Cr)` column. -/
structure Agg where
  symbol : String
  totalValue : ℚ
  valueCr : ℚ
  deriving DecidableEq

/-- Sum of the numeric transaction values of the rows of one symbol group;
NaN (unparseable) cells are skipped, i.e. contribute nothing, exactly as
pandas `groupby(...).sum()` skips NaN. -/
def groupTotal (rs : List Record) (s : String) : ℚ :=
  ((rs.filter (fun r => decide (r.symbol = some s))).filterMap
    (fun r => toNumeric r.transactionValue)).sum

/-- Aggregator, lines 76-78: group the classified rows by the SYMBOL cell
(rows with a missing symbol are dropped, as `groupby` drops NaN keys; keys
come out sorted ascending, as `groupby(sort=True)` sorts them), sum the
coerced value column, and append `Value (Cr) = round(sum / 1e7, 2)`. -/
def aggregate (rs : List Record) : List Agg :=
  (List.insertionSort (· ≤ ·) (rs.filterMap Record.symbol).dedup).map
    (fun s => ⟨s, groupTotal rs s, round2 (groupTotal rs s / 10000000)⟩)

/-- The loaded table: raw header names (as in the uploaded CSV, before the
line 50 normalization) and rows. A row is a total map from header name to
cell; the pipeline reads rows through the normalized header names, matching
the DataFrame after its columns were renamed on line 50. -/
structure Table where
  cols : List String
  rows : List (String → Cell)

/-- Lines 36-40, `get_col_name`: first column whose lowercase name contains
the lowercase form of every keyword. -/
def getColName (cols : List String) (kws : List String) : Option String :=
  cols.find? (fun c => kws.all (fun k => containsTok c k))

/-- Lines 58-59: transaction-type role with its fallback keyword set. -/
def typeColOf (cols : List String) : Option String :=
  match getColName cols ["Transaction", "Type"] with
  | some c => some c
  | none => getColName cols ["Acquis", "Dispos"]

/-- Lines 57-62: the four role bindings. Returns `none` when any role is
unresolved (the `not all([...])` check of line 63; a resolved name always
contains a nonempty keyword, so it is never the empty, falsy string). -/
def resolveCols (cols : List String) : Option (String × String × String × String) :=
  match getColName cols ["Category", "Person"], typeColOf cols,
      getColName cols ["Value", "Security"], getColName cols ["Mode", "Acquis"] with
  | some p, some t, some v, some m => some (p, t, v, m)
  | _, _, _, _ => none

/-- Reading a cell through the pandas `.str` accessor: only text survives,
a missing or non-string cell acts as missing (`na=False` then rejects it). -/
def asText (c : Cell) : Option String :=
  match c with
  | .str s => some s
  | _ => none

/-- Project one row through the resolved binding (and the literal SYMBOL
column used later as the grouping key). -/
def toRecord (r : String → Cell) (pc tc vc mc : String) : Record :=
  ⟨asText (r pc), asText (r tc), asText (r mc), r vc, asText (r "SYMBOL")⟩

/-- How a run can fail: the guarded column-detection failure of lines 63-65,
or the unguarded KeyError that `groupby('SYMBOL')` raises on line 77 when no
SYMBOL column exists. -/
inductive PipelineError where
  | schemaMismatch
  | symbolKeyError
  deriving DecidableEq

/-- The classification/aggregation pipeline, lines 50-79: normalize headers,
resolve the binding (halting with SchemaMismatch if any role is unresolved),
filter, then group by the literal SYMBOL column — which raises if that
column is absent. -/
def runPipeline (t : Table) : Except PipelineError (List Agg) :=
  let cols := t.cols.map normCol
  match resolveCols cols with
  | none => .error .schemaMismatch
  | some (pc, tc, vc, mc) =>
    let final := classify (t.rows.map (fun r => toRecord r pc tc vc mc))
    if "SYMBOL" ∈ cols then .ok (aggregate final) else .error .symbolKeyError

/-- One field of the external quote record: the key can be absent from the
dict, present with value None, or present with a number. -/
inductive QField where
  | absent
  | null
  | val (q : ℚ)
  deriving DecidableEq

/-- The external quote record (`ticker.info`), restricted to the four keys
the program reads. -/
structure Quote where
  trailingPE : QField
  returnOnEquity : QField
  debtToEquity : QField
  currentPrice : QField
  deriving DecidableEq

/-- The external lookup: either raises (any exception of the try block) or
returns a quote record. -/
abbrev LookupFn := String → Except Unit Quote

/-- Lines 116-123 for pe, roe and debt: `info.get(key, 0)` followed by the
explicit `if x is None: x = 0` fix-up. -/
def qGetD0 (f : QField) : ℚ :=
  match f with
  | .absent => 0
  | .null => 0
  | .val q => q

/-- Line 119 for price: `info.get('currentPrice', 0)` with NO None fix-up —
an absent key becomes 0 but a present None value stays None. -/
def qGetPrice (f : QField) : Option ℚ :=
  match f with
  | .absent => some 0
  | .null => none
  | .val q => some q

/-- One row of `top_picks` after the scan added the four columns. `price` is
an `Option` because the Price cell can be Python None (see `qGetPrice`). -/
structure Enriched where
  symbol : String
  totalValue : ℚ
  valueCr : ℚ
  price : Option ℚ
  pe : ℚ
  roePct : ℚ
  debtEq : ℚ
  deriving DecidableEq

/-- The body of the scanning loop (lines 110-134) plus the column assembly of
lines 141-144, for one candidate: look up `symbol + ".NS"`; on an exception
append 0 everywhere; otherwise extract the four fields; ROE is converted to
percent by `round(r * 100, 2)`. -/
def enrichOne (f : LookupFn) (a : Agg) : Enriched :=
  match f (a.symbol ++ ".NS") with
  | .error _ => ⟨a.symbol, a.totalValue, a.valueCr, some 0, 0, round2 (0 * 100), 0⟩
  | .ok q =>
    ⟨a.symbol, a.totalValue, a.valueCr, qGetPrice q.currentPrice,
      qGetD0 q.trailingPE, round2 (qGetD0 q.returnOnEquity * 100),
      qGetD0 q.debtToEquity⟩

/-- Fundamentals Enricher: `top_picks = grouped_df.head(num_stocks)` (line
102) and the scan over it. -/
def enrich (f : LookupFn) (l : List Agg) (n : ℕ) : List Enriched :=
  (l.take n).map (enrichOne f)

/-- The three sidebar values: pe_limit, roe_limit, debt_limit. -/
structure Thresholds where
  peCeiling : ℚ
  roeFloor : ℚ
  debtCeiling : ℚ
  deriving DecidableEq

/-- Lines 147-152, the Quality Gate mask. -/
def acceptB (th : Thresholds) (c : Enriched) : Bool :=
  decide (0 < c.pe) && decide (c.pe < th.peCeiling) &&
    decide (th.roeFloor < c.roePct) && decide (c.debtEq < th.debtCeiling * 100)

/-- Line 147: `gold_stocks = top_picks[mask]`. -/
def goldStocks (l : List Enriched) (th : Thresholds) : List Enriched :=
  l.filter (acceptB th)

/-- Index labels of the accepted rows (`gold_stocks.index`); the labels of
`top_picks` are modelled by the positions, which are distinct exactly like
the labels the frame carries. -/
def goldIdx (l : List Enriched) (th : Thresholds) : List ℕ :=
  (l.enum.filter (fun p => acceptB th p.2)).map Prod.fst

/-- Line 160: `rejected = top_picks[~top_picks.index.isin(gold_stocks.index)]`. -/
def rejectedOf (l : List Enriched) (th : Thresholds) : List Enriched :=
  (l.enum.filter (fun p => !(goldIdx l th).contains p.1)).map Prod.snd

/-- Prop form of the actor predicate: a present category text containing
Promoter case-insensitively. -/
def personProp (r : Record) : Prop :=
  ∃ s, r.actorCategory = some s ∧ containsTok s "Promoter" = true

/-- Prop form of the transaction-type predicate. -/
def buyProp (r : Record) : Prop :=
  ∃ s, r.transactionType = some s ∧
    (containsTok s "Buy" = true ∨ containsTok s "Acqui" = true)

/-- Prop form of the acquisition-mode predicate as the code runs it:
case-sensitive prefix. -/
def modeProp (r : Record) : Prop :=
  ∃ s, r.acquisitionMode = some s ∧ startsTok s "Market P" = true

/-- The acquisition-mode predicate as the claim words it: case-INsensitive
prefix. -/
def modePropCI (r : Record) : Prop :=
  ∃ s, r.acquisitionMode = some s ∧ startsTokCI s "Market P" = true

/-- Claim C2 verbatim: membership in the classifier output is equivalent to
membership in the input plus the three predicates, with the mode prefix read
case-insensitively. Stated to be compared against `classify`. -/
def claimC2Prop : Prop :=
  ∀ (rs : List Record) (r : Record),
    r ∈ classify rs ↔ r ∈ rs ∧ personProp r ∧ buyProp r ∧ modePropCI r

/-- Whether a quote field actually carries a number. -/
def qfIsVal (f : QField) : Bool :=
  match f with
  | .val _ => true
  | _ => false

/-- An incomplete quote record: some consumed field carries no number
(absent key or None value). -/
def quoteIncomplete (q : Quote) : Prop :=
  qfIsVal q.trailingPE = false ∨ qfIsVal q.returnOnEquity = false ∨
    qfIsVal q.debtToEquity = false ∨ qfIsVal q.currentPrice = false

/-- A failed lookup in the claim's sense: the call raises, or the returned
record is incomplete. -/
def lookupFails (f : LookupFn) (a : Agg) : Prop :=
  match f (a.symbol ++ ".NS") with
  | .error _ => True
  | .ok q => quoteIncomplete q

/-- Claim C7 verbatim: any failed lookup stores zero in all four fields of
that candidate. Stated to be compared against `enrichOne`. -/
def claimC7Prop : Prop :=
  ∀ (f : LookupFn) (a : Agg), lookupFails f a →
    (enrichOne f a).price = some 0 ∧ (enrichOne f a).pe = 0 ∧
      (enrichOne f a).roePct = 0 ∧ (enrichOne f a).debtEq = 0

/-- Scenario row: a matching XYZ purchase worth 1e7. -/
def xyzRow1 : Record :=
  ⟨some "Promoter", some "Buy", some "Market Purchase", .num 10000000, some "XYZ"⟩

/-- Scenario row: a matching XYZ purchase worth 2e7. -/
def xyzRow2 : Record :=
  ⟨some "Promoter", some "Buy", some "Market Purchase", .num 20000000, some "XYZ"⟩

/-- Enrichment never touches the symbol. -/
theorem enrichOne_symbol (f : LookupFn) (a : Agg) : (enrichOne f a).symbol = a.symbol := by
  unfold enrichOne
  cases f (a.symbol ++ ".NS") <;> rfl

/-- Summing the surviving numeric values equals summing with missing values
as zero contributions. -/
theorem filterMap_sum_getD {α : Type} (f : α → Option ℚ) (l : List α) :
    (l.filterMap f).sum = (l.map (fun x => (f x).getD 0)).sum := by
  induction l with
  | nil => rfl
  | cons a t ih =>
    cases h : f a <;> simp [List.filterMap_cons, h, ih]

/-- In a list of pairs with distinct first components, the first component
determines the pair. -/
theorem pair_eq_of_fst_eq {α : Type} {l : List (ℕ × α)} {q q' : ℕ × α}
    (h : (l.map Prod.fst).Nodup) (hq : q ∈ l) (hq' : q' ∈ l) (he : q.1 = q'.1) :
    q = q' := by
  induction l with
  | nil => cases hq
  | cons a t ih =>
    rw [List.map_cons, List.nodup_cons] at h
    cases List.mem_cons.1 hq with
    | inl h1 =>
      cases List.mem_cons.1 hq' with
      | inl h2 => exact h1.trans h2.symm
      | inr h2 =>
        have ha : a.1 ∈ t.map Prod.fst := by
          rw [show a.1 = q'.1 from by rw [← h1]; exact he]
          exact List.mem_map_of_mem Prod.fst h2
        exact absurd ha h.1
    | inr h1 =>
      cases List.mem_cons.1 hq' with
      | inl h2 =>
        have ha : a.1 ∈ t.map Prod.fst := by
          rw [show a.1 = q.1 from by rw [← h2]; exact he.symm]
          exact List.mem_map_of_mem Prod.fst h1
        exact absurd ha h.1
      | inr h2 => exact ih h.2 h1 h2

/-- The position labels of `enum` are distinct. -/
theorem enum_fst_nodup {α : Type} (l : List α) : (l.enum.map Prod.fst).Nodup := by
  rw [List.enum_map_fst]
  exact List.nodup_range _

/-- Filtering `enumFrom` on a predicate of the value and dropping the labels
is filtering the plain list. -/
theorem enumFrom_filter_snd {α : Type} (p : α → Bool) :
    ∀ (n : ℕ) (l : List α),
      ((List.enumFrom n l).filter (fun q => p q.2)).map Prod.snd = l.filter p := by
  intro n l
  induction l generalizing n with
  | nil => rfl
  | cons a t ih =>
    cases h : p a <;> simp [List.enumFrom, List.filter_cons, h, ih]

/-- The index-complement definition of the rejected rows coincides with
filtering by the negated acceptance mask, because the index labels are
distinct. -/
theorem rejected_eq_filter (l : List Enriched) (th : Thresholds) :
    rejectedOf l th = l.filter (fun c => !acceptB th c) := by
  unfold rejectedOf
  have hcongr : ∀ q ∈ l.enum, (!(goldIdx l th).contains q.1) = !acceptB th q.2 := by
    intro q hq
    have : (goldIdx l th).contains q.1 = acceptB th q.2 := by
      by_cases hacc : acceptB th q.2 = true
      · rw [hacc]
        have : q ∈ l.enum.filter (fun p => acceptB th p.2) :=
          List.mem_filter.2 ⟨hq, hacc⟩
        exact List.elem_iff.2 (List.mem_map_of_mem Prod.fst this)
      · rw [Bool.not_eq_true] at hacc
        rw [hacc]
        rw [Bool.eq_false_iff]
        intro hmem
        obtain ⟨q', hq', he⟩ := List.mem_map.1 (List.elem_iff.1 hmem)
        have hq'mem := List.mem_of_mem_filter hq'
        have : q' = q := pair_eq_of_fst_eq (enum_fst_nodup l) hq'mem hq he
        subst this
        exact absurd (List.of_mem_filter hq') (by simp [hacc])
    rw [this]
  rw [List.filter_congr hcongr]
  exact enumFrom_filter_snd (fun c => !acceptB th c) 0 l

/-- The accepted and rejected row sets partition the scanned rows with
multiplicity. -/
theorem count_gold_add_rejected (l : List Enriched) (th : Thresholds) (c : Enriched) :
    (goldStocks l th).count c + (rejectedOf l th).count c = l.count c := by
  rw [rejected_eq_filter]
  unfold goldStocks
  induction l with
  | nil => rfl
  | cons a t ih =>
    rcases eq_or_ne a c with rfl | hc
    · cases h : acceptB th a with
      | true =>
        rw [List.filter_cons_of_pos h, List.filter_cons_of_neg (by simp [h]),
          List.count_cons_self, List.count_cons_self]
        omega
      | false =>
        rw [List.filter_cons_of_neg (by simp [h]), List.filter_cons_of_pos (by simp [h]),
          List.count_cons_self, List.count_cons_self]
        omega
    · cases h : acceptB th a with
      | true =>
        rw [List.filter_cons_of_pos h, List.filter_cons_of_neg (by simp [h]),
          List.count_cons_of_ne (Ne.symm hc), List.count_cons_of_ne (Ne.symm hc)]
        exact ih
      | false =>
        rw [List.filter_cons_of_neg (by simp [h]), List.filter_cons_of_pos (by simp [h]),
          List.count_cons_of_ne (Ne.symm hc), List.count_cons_of_ne (Ne.symm hc)]
        exact ih

/-- A successful `find?` finds the first satisfying element. -/
theorem find?_first {α : Type} (p : α → Bool) :
    ∀ (l : List α) (c : α), l.find? p = some c →
      ∃ pre post, l = pre ++ c :: post ∧ p c = true ∧ ∀ b ∈ pre, p b = false := by
  intro l
  induction l with
  | nil => intro c h; simp at h
  | cons a t ih =>
    intro c h
    cases ha : p a with
    | true =>
      rw [List.find?_cons_of_pos _ ha, Option.some.injEq] at h
      subst h
      exact ⟨[], t, rfl, ha, by simp⟩
    | false =>
      rw [List.find?_cons_of_neg _ (by simp [ha])] at h
      obtain ⟨pre, post, hsplit, hc, hpre⟩ := ih c h
      refine ⟨a :: pre, post, by rw [hsplit]; rfl, hc, ?_⟩
      intro b hb
      rcases List.mem_cons.1 hb with rfl | hb
      · exact ha
      · exact hpre b hb

/-- Characterization of `get_col_name`: a successful binding is the first
column matching every keyword. -/
theorem getColName_eq_some {cols kws : List String} {c : String}
    (h : getColName cols kws = some c) :
    ∃ pre post, cols = pre ++ c :: post ∧
      (∀ k ∈ kws, containsTok c k = true) ∧
      ∀ b ∈ pre, ∃ k ∈ kws, containsTok b k = false := by
  obtain ⟨pre, post, hsplit, hc, hpre⟩ := find?_first _ cols c h
  refine ⟨pre, post, hsplit, fun k hk => List.all_eq_true.1 hc k hk, ?_⟩
  intro b hb
  obtain ⟨k, hk, hfk⟩ := List.all_eq_false.1 (hpre b hb)
  exact ⟨k, hk, Bool.eq_false_iff.2 hfk⟩

/-- Bool/Prop bridge for the actor predicate. -/
theorem personB_iff (r : Record) : personB r = true ↔ personProp r := by
  cases hr : r.actorCategory <;> simp [personB, hr, personProp]

/-- Bool/Prop bridge for the transaction-type predicate. -/
theorem buyB_iff (r : Record) : buyB r = true ↔ buyProp r := by
  cases hr : r.transactionType <;> simp [buyB, hr, buyProp]

/-- Bool/Prop bridge for the acquisition-mode predicate. -/
theorem modeB_iff (r : Record) : modeB r = true ↔ modeProp r := by
  cases hr : r.acquisitionMode <;> simp [modeB, hr, modeProp]

/-- Bool/Prop bridge for the gate mask. -/
theorem acceptB_iff (th : Thresholds) (c : Enriched) :
    acceptB th c = true ↔
      0 < c.pe ∧ c.pe < th.peCeiling ∧ th.roeFloor < c.roePct ∧
        c.debtEq < th.debtCeiling * 100 := by
  simp [acceptB, and_assoc]

/-- Unfolding of the pipeline when resolution fails. -/
theorem runPipeline_none (t : Table)
    (h : resolveCols (t.cols.map normCol) = none) :
    runPipeline t = .error .schemaMismatch := by
  simp only [runPipeline]
  rw [h]

/-- Unfolding of the pipeline when resolution succeeds. -/
theorem runPipeline_some (t : Table) (pc tc vc mc : String)
    (h : resolveCols (t.cols.map normCol) = some (pc, tc, vc, mc)) :
    runPipeline t = if "SYMBOL" ∈ t.cols.map normCol then
      .ok (aggregate (classify (t.rows.map (fun r => toRecord r pc tc vc mc))))
    else .error .symbolKeyError := by
  simp only [runPipeline]
  rw [h]

/-- C1: the Quality Gate accepts a scanned row iff `peRatio > 0`,
`peRatio < peCeiling`, `roePercent > roeFloor` and
`debtToEquity < debtCeiling * 100` all hold; every other scanned row — in
particular any row with `peRatio = 0` — lands in the rejected set. -/
theorem c1_quality_gate :
    ∀ (l : List Enriched) (th : Thresholds) (c : Enriched),
      (c ∈ goldStocks l th ↔ c ∈ l ∧
        (0 < c.pe ∧ c.pe < th.peCeiling ∧ th.roeFloor < c.roePct ∧
          c.debtEq < th.debtCeiling * 100)) ∧
      (c ∈ rejectedOf l th ↔ c ∈ l ∧
        ¬(0 < c.pe ∧ c.pe < th.peCeiling ∧ th.roeFloor < c.roePct ∧
          c.debtEq < th.debtCeiling * 100)) ∧
      (c.pe = 0 → (c ∈ rejectedOf l th ↔ c ∈ l)) := by
  intro l th c
  have hb : ∀ b : Bool, (!b) = true ↔ ¬(b = true) := by decide
  have hgold : c ∈ goldStocks l th ↔ c ∈ l ∧
      (0 < c.pe ∧ c.pe < th.peCeiling ∧ th.roeFloor < c.roePct ∧
        c.debtEq < th.debtCeiling * 100) := by
    simp only [goldStocks, List.mem_filter, acceptB_iff]
  have hrej : c ∈ rejectedOf l th ↔ c ∈ l ∧
      ¬(0 < c.pe ∧ c.pe < th.peCeiling ∧ th.roeFloor < c.roePct ∧
        c.debtEq < th.debtCeiling * 100) := by
    simp only [rejected_eq_filter, List.mem_filter, hb, acceptB_iff]
  refine ⟨hgold, hrej, fun hpe => ?_⟩
  rw [hrej]
  constructor
  · exact fun h => h.1
  · intro h
    refine ⟨h, fun hall => ?_⟩
    rw [hpe] at hall
    exact absurd hall.1 (lt_irrefl 0)

/-- C1 witness: scenario 4 — pe 25, roe 15, debt 80 is accepted at
thresholds (60, 10, 2) and rejected at (60, 10, 1/2). -/
theorem c1_quality_gate_witness :
    (⟨"A", 0, 0, some 0, 25, 15, 80⟩ : Enriched) ∈
      goldStocks [⟨"A", 0, 0, some 0, 25, 15, 80⟩] ⟨60, 10, 2⟩ ∧
    (⟨"A", 0, 0, some 0, 25, 15, 80⟩ : Enriched) ∈
      rejectedOf [⟨"A", 0, 0, some 0, 25, 15, 80⟩] ⟨60, 10, 1 / 2⟩ :=
  ⟨(c1_quality_gate [⟨"A", 0, 0, some 0, 25, 15, 80⟩] ⟨60, 10, 2⟩ _).1.mpr
      ⟨List.mem_singleton_self _, by norm_num⟩,
    (c1_quality_gate [⟨"A", 0, 0, some 0, 25, 15, 80⟩] ⟨60, 10, 1 / 2⟩ _).2.1.mpr
      ⟨List.mem_singleton_self _, by norm_num⟩⟩

/-- C2 counterexample: the code's mode predicate is case-SENSITIVE
(`str.startswith` has no case folding), so a row whose mode reads
MARKET PURCHASE satisfies the claim's case-insensitive predicate yet is
filtered out. -/
theorem c2_classifier_cex : ¬ claimC2Prop := by
  intro h
  have hm := (h [⟨some "Promoter", some "Buy", some "MARKET PURCHASE", .na, some "A"⟩]
      ⟨some "Promoter", some "Buy", some "MARKET PURCHASE", .na, some "A"⟩).mpr
    ⟨List.mem_singleton_self _, ⟨"Promoter", rfl, by decide⟩,
      ⟨"Buy", rfl, Or.inl (by decide)⟩, ⟨"MARKET PURCHASE", rfl, by decide⟩⟩
  rw [show classify [(⟨some "Promoter", some "Buy", some "MARKET PURCHASE", .na,
      some "A"⟩ : Record)] = [] from by decide] at hm
  exact absurd hm (List.not_mem_nil _)

/-- C2 (amended): a record is in the classifier output iff it is in the
input, its actor category contains Promoter case-insensitively, its
transaction type contains Buy or Acqui case-insensitively, and its
acquisition mode starts with the exact text Market P (case-sensitively);
records missing any of the three fields are excluded, not errors. -/
theorem c2_classifier :
    ∀ (rs : List Record) (r : Record),
      (r ∈ classify rs ↔ r ∈ rs ∧ personProp r ∧ buyProp r ∧ modeProp r) ∧
      ((r.actorCategory = none ∨ r.transactionType = none ∨
          r.acquisitionMode = none) → r ∉ classify rs) := by
  intro rs r
  have hiff : r ∈ classify rs ↔ r ∈ rs ∧ personProp r ∧ buyProp r ∧ modeProp r := by
    unfold classify
    simp only [List.mem_filter, personB_iff, buyB_iff, modeB_iff]
    tauto
  refine ⟨hiff, fun hnone hmem => ?_⟩
  obtain ⟨_, hp, hb, hmo⟩ := hiff.1 hmem
  rcases hnone with hn | hn | hn
  · obtain ⟨s, hs, _⟩ := hp
    simp [hn] at hs
  · obtain ⟨s, hs, _⟩ := hb
    simp [hn] at hs
  · obtain ⟨s, hs, _⟩ := hmo
    simp [hn] at hs

/-- C2 witness: a fully matching row survives the classifier; a row with a
missing actor category is excluded. -/
theorem c2_classifier_witness :
    (⟨some "Promoter Group", some "Buy", some "Market Purchase", .na, some "ABC"⟩ :
        Record) ∈
      classify [⟨some "Promoter Group", some "Buy", some "Market Purchase", .na,
        some "ABC"⟩] ∧
    (⟨none, some "Buy", some "Market Purchase", .na, some "ABC"⟩ : Record) ∉
      classify [⟨none, some "Buy", some "Market Purchase", .na, some "ABC"⟩] :=
  ⟨(c2_classifier _ _).1.mpr ⟨List.mem_singleton_self _, ⟨_, rfl, by decide⟩,
      ⟨_, rfl, Or.inl (by decide)⟩, ⟨_, rfl, by decide⟩⟩,
    (c2_classifier _ _).2 (Or.inl rfl)⟩

/-- C3: every aggregated row's totalValue is the sum of the transaction
values of its symbol's rows with non-numeric values contributing zero (and
never raising), and normalizedValue is round(total / 1e7, 2). -/
theorem c3_aggregator :
    ∀ (rs : List Record) (a : Agg), a ∈ aggregate rs →
      a.totalValue = ((rs.filter (fun r => decide (r.symbol = some a.symbol))).map
        (fun r => (toNumeric r.transactionValue).getD 0)).sum ∧
      a.valueCr = round2 (((rs.filter (fun r => decide (r.symbol = some a.symbol))).map
        (fun r => (toNumeric r.transactionValue).getD 0)).sum / 10000000) := by
  intro rs a ha
  obtain ⟨s, hs, rfl⟩ := List.mem_map.1 ha
  constructor
  · show groupTotal rs s = _
    unfold groupTotal
    exact filterMap_sum_getD _ _
  · show round2 (groupTotal rs s / 10000000) = _
    unfold groupTotal
    rw [filterMap_sum_getD]

/-- C3 witness: scenario 3 — two matching rows for XYZ worth 1e7 and 2e7
aggregate to a single signal with normalizedValue 3. -/
theorem c3_aggregator_witness :
    (30000000 : ℚ) = ((([xyzRow1, xyzRow2] : List Record).filter
        (fun r => decide (r.symbol = some "XYZ"))).map
        (fun r => (toNumeric r.transactionValue).getD 0)).sum ∧
    (3 : ℚ) = round2 (((([xyzRow1, xyzRow2] : List Record).filter
        (fun r => decide (r.symbol = some "XYZ"))).map
        (fun r => (toNumeric r.transactionValue).getD 0)).sum / 10000000) :=
  c3_aggregator [xyzRow1, xyzRow2] ⟨"XYZ", 30000000, 3⟩ (by
    rw [show aggregate [xyzRow1, xyzRow2] = [⟨"XYZ", 30000000, 3⟩] from by
      norm_num [xyzRow1, xyzRow2, aggregate, groupTotal, List.insertionSort,
        List.orderedInsert, List.filterMap, List.filter, List.dedup, toNumeric,
        round2, roundHalfEven]]
    exact List.mem_singleton_self _)

/-- C4: headers are normalized before resolution (the pipeline result
depends on the headers only through their normalized forms); a successful
role binding is the first column containing all of the role's keyword
tokens; and the run fails with SchemaMismatch exactly when some role is
unresolved, independent of the rows — so it halts before any filtering. -/
theorem c4_schema_resolution :
    (∀ t tb : Table, t.cols.map normCol = tb.cols.map normCol → t.rows = tb.rows →
      runPipeline t = runPipeline tb) ∧
    (∀ (cols kws : List String) (c : String), getColName cols kws = some c →
      ∃ pre post, cols = pre ++ c :: post ∧
        (∀ k ∈ kws, containsTok c k = true) ∧
        ∀ b ∈ pre, ∃ k ∈ kws, containsTok b k = false) ∧
    (∀ t : Table, runPipeline t = .error .schemaMismatch ↔
      resolveCols (t.cols.map normCol) = none) := by
  refine ⟨?_, fun cols kws c h => getColName_eq_some h, ?_⟩
  · intro t tb hc hr
    unfold runPipeline
    rw [hc, hr]
  · intro t
    cases hres : resolveCols (t.cols.map normCol) with
    | none => simp [runPipeline_none t hres]
    | some b =>
      obtain ⟨pc, tc, vc, mc⟩ := b
      rw [runPipeline_some t pc tc vc mc hres]
      by_cases hs : "SYMBOL" ∈ t.cols.map normCol <;> simp [hs]

/-- C4 witness: a header set decorated with newlines and padding runs
identically to the clean one, and a table without the required columns
fails with SchemaMismatch. -/
theorem c4_schema_resolution_witness :
    runPipeline ⟨[" SYM\nBOL ", "Category of Person", "Transaction Type",
        "Value of Security", "Mode of Acquisition"], []⟩ =
      runPipeline ⟨["SYMBOL", "Category of Person", "Transaction Type",
        "Value of Security", "Mode of Acquisition"], []⟩ ∧
    (runPipeline ⟨["Foo"], []⟩ = .error .schemaMismatch ↔
      resolveCols (["Foo"].map normCol) = none) :=
  ⟨c4_schema_resolution.1 _ _ (by decide) rfl, c4_schema_resolution.2.2 _⟩

/-- C5: the grouping key SYMBOL is outside the four-role SchemaMismatch
check — when the four roles resolve but no SYMBOL column exists, the run
dies at the grouping step with the distinct (unhandled) KeyError, not the
early SchemaMismatch. -/
theorem c5_symbol_key_gap :
    ∀ (t : Table) (b : String × String × String × String),
      resolveCols (t.cols.map normCol) = some b →
      "SYMBOL" ∉ t.cols.map normCol →
      runPipeline t = .error .symbolKeyError := by
  intro t b hres hsym
  obtain ⟨pc, tc, vc, mc⟩ := b
  rw [runPipeline_some t pc tc vc mc hres, if_neg hsym]

/-- C5 witness: all four roles bind but SYMBOL is absent — the run raises
the grouping KeyError. -/
theorem c5_symbol_key_gap_witness :
    runPipeline ⟨["Category of Person", "Transaction Type", "Value of Security",
      "Mode of Acquisition"], []⟩ = .error .symbolKeyError :=
  c5_symbol_key_gap _ ("Category of Person", "Transaction Type",
    "Value of Security", "Mode of Acquisition") (by decide) (by decide)

/-- C6: the Fundamentals Enricher scans `head(n)`: exactly min(n, length)
entries, in the input's rank order, and every enriched row comes from one of
the first n ranked entries. -/
theorem c6_enricher_topn :
    ∀ (f : LookupFn) (l : List Agg) (n : ℕ),
      (enrich f l n).length = min n l.length ∧
      (enrich f l n).map Enriched.symbol = (l.map Agg.symbol).take n ∧
      ∀ c ∈ enrich f l n, ∃ a ∈ l.take n, c = enrichOne f a := by
  intro f l n
  refine ⟨by simp [enrich], ?_, ?_⟩
  · unfold enrich
    rw [List.map_map]
    have hcomp : Enriched.symbol ∘ enrichOne f = Agg.symbol :=
      funext (enrichOne_symbol f)
    rw [hcomp, List.map_take]
  · intro c hc
    obtain ⟨a, ha, rfl⟩ := List.mem_map.1 hc
    exact ⟨a, ha, rfl⟩

/-- C6 witness: with one candidate and a failing lookup, the single output
row comes from the single ranked entry. -/
theorem c6_enricher_topn_witness :
    ∃ a ∈ ([⟨"ABC", 50000000, 5⟩] : List Agg).take 1,
      enrichOne (fun _ => .error ()) ⟨"ABC", 50000000, 5⟩ =
        enrichOne (fun _ => .error ()) a :=
  (c6_enricher_topn (fun _ => .error ()) [⟨"ABC", 50000000, 5⟩] 1).2.2
    (enrichOne (fun _ => .error ()) ⟨"ABC", 50000000, 5⟩) (by simp [enrich])

/-- C7 counterexample: a lookup that returns a record whose currentPrice
key is present with value None is an incomplete record, yet the stored
price is None (absent), not zero — line 119 lacks the None fix-up the
three other fields get on lines 121-123. -/
theorem c7_enricher_cex : ¬ claimC7Prop := by
  intro h
  obtain ⟨hp, _, _, _⟩ :=
    h (fun _ => .ok ⟨.val 5, .val (1 / 10), .val 50, .null⟩) ⟨"ABC", 0, 0⟩
      (by simp [lookupFails, quoteIncomplete, qfIsVal])
  simp [enrichOne, qGetPrice] at hp

/-- C7 (amended): a thrown lookup zeroes all four fields of that candidate
only; an absent key defaults its field to zero; a key present with a None
value is zeroed for peRatio, roePercent and debtToEquity but leaves price
None rather than zero; and each candidate's row depends only on its own
lookup, so one failure never disturbs the neighbours. -/
theorem c7_enricher_isolation :
    ∀ (f : LookupFn) (a : Agg),
      (∀ e : Unit, f (a.symbol ++ ".NS") = .error e →
        enrichOne f a = ⟨a.symbol, a.totalValue, a.valueCr, some 0, 0,
          round2 (0 * 100), 0⟩) ∧
      (∀ q : Quote, f (a.symbol ++ ".NS") = .ok q →
        (enrichOne f a).pe = qGetD0 q.trailingPE ∧
        (enrichOne f a).roePct = round2 (qGetD0 q.returnOnEquity * 100) ∧
        (enrichOne f a).debtEq = qGetD0 q.debtToEquity ∧
        (enrichOne f a).price = qGetPrice q.currentPrice ∧
        (q.trailingPE = .absent ∨ q.trailingPE = .null → (enrichOne f a).pe = 0) ∧
        (q.currentPrice = .absent → (enrichOne f a).price = some 0) ∧
        (q.currentPrice = .null → (enrichOne f a).price = none)) ∧
      (∀ g : LookupFn, f (a.symbol ++ ".NS") = g (a.symbol ++ ".NS") →
        enrichOne f a = enrichOne g a) ∧
      (∀ (l : List Agg) (n : ℕ), enrich f l n = (l.take n).map (enrichOne f)) := by
  intro f a
  refine ⟨?_, ?_, ?_, fun l n => rfl⟩
  · intro e he
    unfold enrichOne
    rw [he]
  · intro q hq
    have he : enrichOne f a = ⟨a.symbol, a.totalValue, a.valueCr,
        qGetPrice q.currentPrice, qGetD0 q.trailingPE,
        round2 (qGetD0 q.returnOnEquity * 100), qGetD0 q.debtToEquity⟩ := by
      unfold enrichOne
      rw [hq]
    rw [he]
    refine ⟨rfl, rfl, rfl, rfl, ?_, ?_, ?_⟩
    · rintro (hf | hf) <;> rw [hf] <;> rfl
    · intro hf
      rw [hf]
      rfl
    · intro hf
      rw [hf]
      rfl
  · intro g hg
    unfold enrichOne
    rw [hg]

/-- C7 witness: a thrown lookup yields the all-zero row. -/
theorem c7_enricher_isolation_witness :
    enrichOne (fun _ => .error ()) ⟨"ABC", 50000000, 5⟩ =
      ⟨"ABC", 50000000, 5, some 0, 0, round2 (0 * 100), 0⟩ :=
  (c7_enricher_isolation (fun _ => .error ()) ⟨"ABC", 50000000, 5⟩).1 () rfl

/-- C8: the gate is pure — identical inputs give identical partitions; its
outputs are rows of the scanned frame, unmodified, and together they
partition it with multiplicity; and for a candidate with `peRatio ≤ 0`,
membership in the rejected set does not depend on peCeiling. -/
theorem c8_gate_purity :
    ∀ (l : List Enriched) (th : Thresholds),
      (goldStocks l th, rejectedOf l th) = (goldStocks l th, rejectedOf l th) ∧
      (∀ c ∈ goldStocks l th, c ∈ l) ∧
      (∀ c ∈ rejectedOf l th, c ∈ l) ∧
      (∀ c : Enriched,
        (goldStocks l th).count c + (rejectedOf l th).count c = l.count c) ∧
      (∀ (c : Enriched) (p1 p2 rf dc : ℚ), c.pe ≤ 0 →
        (c ∈ rejectedOf l ⟨p1, rf, dc⟩ ↔ c ∈ rejectedOf l ⟨p2, rf, dc⟩)) := by
  intro l th
  refine ⟨rfl, ?_, ?_, count_gold_add_rejected l th, ?_⟩
  · intro c hc
    exact List.mem_of_mem_filter hc
  · intro c hc
    rw [rejected_eq_filter] at hc
    exact List.mem_of_mem_filter hc
  · intro c p1 p2 rf dc hpe
    have h0 : ¬(0 : ℚ) < c.pe := not_lt.2 hpe
    have hacc : ∀ p : ℚ, acceptB ⟨p, rf, dc⟩ c = false := by
      intro p
      simp [acceptB, h0]
    rw [rejected_eq_filter, rejected_eq_filter]
    simp [List.mem_filter, hacc]

/-- C8 witness: a zero-pe candidate is rejected under peCeiling 60 iff it
is rejected under peCeiling 99. -/
theorem c8_gate_purity_witness :
    ((⟨"Z", 0, 0, some 0, 0, 5, 10⟩ : Enriched) ∈
        rejectedOf [⟨"Z", 0, 0, some 0, 0, 5, 10⟩] ⟨60, 10, 2⟩ ↔
      (⟨"Z", 0, 0, some 0, 0, 5, 10⟩ : Enriched) ∈
        rejectedOf [⟨"Z", 0, 0, some 0, 0, 5, 10⟩] ⟨99, 10, 2⟩) :=
  (c8_gate_purity [⟨"Z", 0, 0, some 0, 0, 5, 10⟩] ⟨60, 10, 2⟩).2.2.2.2
    ⟨"Z", 0, 0, some 0, 0, 5, 10⟩ 60 99 10 2 le_rfl

/-- C9: the Aggregator is order-independent — permuting the classified rows
leaves the aggregated list (keys and both value columns) unchanged. -/
theorem c9_aggregate_perm :
    ∀ (rs rs2 : List Record), rs.Perm rs2 → aggregate rs = aggregate rs2 := by
  intro rs rs2 h
  have hkeys : List.insertionSort (· ≤ ·) (rs.filterMap Record.symbol).dedup =
      List.insertionSort (· ≤ ·) (rs2.filterMap Record.symbol).dedup :=
    List.eq_of_perm_of_sorted
      ((List.perm_insertionSort _ _).trans
        (((h.filterMap Record.symbol).dedup).trans (List.perm_insertionSort _ _).symm))
      (List.sorted_insertionSort _ _) (List.sorted_insertionSort _ _)
  have htot : ∀ s, groupTotal rs s = groupTotal rs2 s := by
    intro s
    unfold groupTotal
    exact ((h.filter _).filterMap _).sum_eq
  unfold aggregate
  rw [hkeys]
  simp only [htot]

/-- C9 witness: swapping two classified rows leaves the aggregate
unchanged. -/
theorem c9_aggregate_perm_witness :
    aggregate [⟨some "Promoter", some "Buy", some "Market Purchase", .na, some "B"⟩,
      ⟨some "Promoter", some "Buy", some "Market Purchase", .na, some "A"⟩] =
    aggregate [⟨some "Promoter", some "Buy", some "Market Purchase", .na, some "A"⟩,
      ⟨some "Promoter", some "Buy", some "Market Purchase", .na, some "B"⟩] :=
  c9_aggregate_perm _ _ (List.Perm.swap _ _ _)


end UnclesRadar
